import Mathlib

/-!
Verification of the diff-aware suggestion application engine of gh-prreview.

The embedding models, from `pkg/applier/applier.go` and `pkg/ui` sources:
  * line splitting/joining as done by Go's `strings.Split`/`strings.Join`,
  * the replacement-target search (`findReplacementTarget`),
  * the suggestion application (`applySuggestion`),
  * the batch loop (`ApplyAll`),
  * the diagnostic artifact builder (`saveMismatchDiff`),
  * the suggestion-block stripper (`ui.StripSuggestionBlock`).

The `diffhunk`, `diffposition` and `parser` packages are not part of the
source tree given; their contracts are modelled from the specification and
each such definition carries a doc comment starting `Modelled from the spec:`.
-/

/-- Kind of a line inside a unified-diff hunk: context, added, or removed. -/
inductive LineKind where
  | context
  | add
  | remove
deriving DecidableEq, Repr

/-- Modelled from the spec: a structured line of a parsed diff hunk
(`diffhunk.DiffLine`, absent from src).  `oldLineNumber` is meaningful for
context/remove lines, `newLineNumber` for context/add lines; the unused
counter is left at 0. -/
structure DiffLine where
  kind : LineKind
  text : String
  oldLineNumber : Nat
  newLineNumber : Nat
deriving DecidableEq, Repr

/-- Modelled from the spec: a parsed unified-diff hunk
(`diffhunk.DiffHunk`, absent from src) with the four header fields and the
structured lines. -/
structure DiffHunk where
  oldStart : Nat
  oldCount : Nat
  newStart : Nat
  newCount : Nat
  lines : List DiffLine
deriving DecidableEq, Repr

/-- Side of the diff a review comment is anchored to. -/
inductive DiffSide where
  | left
  | right
deriving DecidableEq, Repr

/-- The subset of `github.ReviewComment` consumed by the applier. -/
structure ReviewComment where
  id : Nat
  path : String
  line : Int
  originalLine : Int
  body : String
  diffHunk : String
  diffSide : DiffSide
  suggestedCode : String
  isOutdated : Bool
  htmlUrl : String
deriving DecidableEq, Repr

/-- Splitting a character list at every newline, as Go's
`strings.Split(s, "\n")` does: the result always has at least one element
and a trailing newline yields a trailing empty element. -/
def splitNlChars : List Char → List (List Char)
  | [] => [[]]
  | c :: rest =>
    if c = '\n' then [] :: splitNlChars rest
    else
      match splitNlChars rest with
      | [] => [[c]]
      | l :: ls => (c :: l) :: ls

/-- Go's `strings.Split(s, "\n")`. -/
def splitNl (s : String) : List String :=
  (splitNlChars s.data).map (fun cs => String.mk cs)

/-- Joining with newlines, character-list level. -/
def joinNlChars : List (List Char) → List Char
  | [] => []
  | [l] => l
  | l :: ls => l ++ '\n' :: joinNlChars ls

/-- Go's `strings.Join(lines, "\n")`. -/
def joinNl (ls : List String) : String :=
  String.mk (joinNlChars (ls.map String.data))

/-- Go's `strings.HasSuffix(s, "\n")`. -/
def endsWithNl (s : String) : Bool :=
  s.data.getLast? == some '\n'

/-- Go's `strings.TrimSuffix(s, "\n")`: removes one trailing newline if present. -/
def trimOneNl (s : String) : String :=
  if endsWithNl s then String.mk s.data.dropLast else s

/-- Numeric value of a digit string (most significant first). -/
def digitsVal (ds : List Char) : Nat :=
  ds.foldl (fun a c => a * 10 + (c.toNat - 48)) 0

/-- Longest prefix of decimal digits and the remainder. -/
def takeDigits : List Char → List Char × List Char
  | [] => ([], [])
  | c :: cs =>
    if c.isDigit then
      let (d, r) := takeDigits cs
      (c :: d, r)
    else ([], c :: cs)

/-- Strip a literal token from the front of a character list. -/
def stripLit : List Char → List Char → Option (List Char)
  | [], cs => some cs
  | t :: ts, c :: cs => if c = t then stripLit ts cs else none
  | _ :: _, [] => none

/-- Parse a nonempty run of digits. -/
def parseNum (cs : List Char) : Option (Nat × List Char) :=
  let (ds, rest) := takeDigits cs
  if ds.isEmpty then none else some (digitsVal ds, rest)

/-- Parse the optional `,count` part of a hunk-header range; an omitted
count defaults to 1 (unified-diff convention).  A comma not followed by
digits is left unconsumed, as the regex's optional group would not match. -/
def parseOptCount (cs : List Char) : Nat × List Char :=
  match cs with
  | ',' :: rest =>
    match parseNum rest with
    | some (n, r) => (n, r)
    | none => (1, ',' :: rest)
  | _ => (1, cs)

/-- Modelled from the spec: the hunk-header recognizer of `diffhunk`
(absent from src), matching `@@ -(\d+)(,(\d+))? \+(\d+)(,(\d+))? @@` at the
start of the line; text after the closing `@@` is ignored. -/
def parseHunkHeader (line : String) : Option (Nat × Nat × Nat × Nat) := do
  let cs ← stripLit "@@ -".data line.data
  let (oldStart, cs) ← parseNum cs
  let (oldCount, cs) := parseOptCount cs
  let cs ← stripLit " +".data cs
  let (newStart, cs) ← parseNum cs
  let (newCount, cs) := parseOptCount cs
  let _ ← stripLit " @@".data cs
  some (oldStart, oldCount, newStart, newCount)

/-- Modelled from the spec: the body walk of `diffhunk.ParseDiffHunk`
(absent from src).  Counters start at the header's `oldStart`/`newStart`;
the old counter advances on remove/context lines and the new counter on
add/context lines; a zero-length line is treated as context; any other
leading character is a parse error. -/
def parseHunkLines : List String → Nat → Nat → Option (List DiffLine)
  | [], _, _ => some []
  | l :: rest, oldN, newN =>
    match l.data with
    | [] => (parseHunkLines rest (oldN + 1) (newN + 1)).map
        (fun ls => ⟨LineKind.context, "", oldN, newN⟩ :: ls)
    | ch :: body =>
      if ch = ' ' then
        (parseHunkLines rest (oldN + 1) (newN + 1)).map
          (fun ls => ⟨LineKind.context, String.mk body, oldN, newN⟩ :: ls)
      else if ch = '+' then
        (parseHunkLines rest oldN (newN + 1)).map
          (fun ls => ⟨LineKind.add, String.mk body, 0, newN⟩ :: ls)
      else if ch = '-' then
        (parseHunkLines rest (oldN + 1) newN).map
          (fun ls => ⟨LineKind.remove, String.mk body, oldN, 0⟩ :: ls)
      else none

/-- Modelled from the spec: `diffhunk.ParseDiffHunk` (absent from src).
The first line must be a well-formed hunk header; a malformed header or
body line is a parse error. -/
def parseDiffHunk (hunkText : String) : Except String DiffHunk :=
  match splitNl hunkText with
  | [] => Except.error "empty hunk"
  | header :: body =>
    match parseHunkHeader header with
    | none => Except.error "invalid hunk header"
    | some (os, oc, ns, nc) =>
      match parseHunkLines body os ns with
      | none => Except.error "invalid hunk line"
      | some ls => Except.ok ⟨os, oc, ns, nc, ls⟩

/-- Modelled from the spec: `diffhunk.GetAddedLines` (absent from src) —
the text of every add-type (`+`-prefixed) line of the hunk, in order.  The
header line starts with `@` and so never contributes. -/
def getAddedLines (hunkText : String) : List String :=
  (splitNl hunkText).filterMap fun l =>
    match l.data with
    | '+' :: rest => some (String.mk rest)
    | _ => none

/-- Modelled from the spec: `diffhunk.GetZeroBased` (absent from src),
the trivial `n - 1` conversion from 1-based to 0-based numbering,
computed in integers as in Go. -/
def getZeroBased (n : Nat) : Int :=
  (n : Int) - 1

/-- The failure modes of `applySuggestion`/`findReplacementTarget`, one
constructor per distinct error return of the Go code.  `contentMismatch`
carries the diagnostic file path, `""` meaning the artifact write failed
and the plain error message was returned. -/
inductive ApplyError where
  | readError (path : String)
  | noAddedLines
  | notFound (wanted : Nat) (first : String)
  | contentMismatch (mismatchLine : Nat) (diagFile : String)
  | outOfBounds (target : Int) (fileLen : Nat)
  | writeError (path : String)
deriving DecidableEq, Repr

/-- The element-for-element comparison loop of `findReplacementTarget`:
the block of `added.length` file lines starting at index `i` equals
`added` (false whenever the block would run past the end of the file). -/
def blockEq (fileLines added : List String) (i : Nat) : Bool :=
  (fileLines.drop i).take added.length == added

/-- The Strategy 2 scan of `findReplacementTarget` (applier.go:360-375):
first index `i` in `0 ≤ i ≤ len(fileLines) - len(addedLines)` (ascending)
whose block equals `added`; Go's `i <= len(fileLines)-len(addedLines)`
over ints is `i + added.length ≤ fileLines.length` and yields zero
iterations when the file is shorter than the block. -/
def searchIdx (fileLines added : List String) : Option Nat :=
  (List.range (fileLines.length + 1 - added.length)).find? fun i =>
    blockEq fileLines added i

/-- The final verification loop of `findReplacementTarget`
(applier.go:386-394): the first position `j < added.length` where the
file line at `t + j` differs from `added[j]`. -/
def firstMismatch (fileLines added : List String) (t : Nat) : Option Nat :=
  (List.range added.length).find? fun j =>
    !(fileLines.getD (t + j) "" == added.getD j "")

/-- Strategy 1 of `findReplacementTarget` (applier.go:317-334): the
position-mapped candidate target, `-1` when the hunk is empty, fails to
parse, or has no add line; otherwise the zero-based new-file line number
of the first add line. -/
def strategy1Target (c : ReviewComment) : Int :=
  if c.diffHunk = "" then -1
  else
    match parseDiffHunk c.diffHunk with
    | Except.error _ => -1
    | Except.ok h =>
      match h.lines.find? (fun l => l.kind == LineKind.add) with
      | some l => getZeroBased l.newLineNumber
      | none => -1

/-- Rendering of a `DiffSide` as the string Go prints with `%s`. -/
def sideStr : DiffSide → String
  | DiffSide.left => "LEFT"
  | DiffSide.right => "RIGHT"

/-- The deterministic diagnostic path of `saveMismatchDiff`
(applier.go:405). -/
def mismatchDiffPath (id : Nat) : String :=
  "/tmp/gh-prreview-mismatch-" ++ toString id ++ ".diff"

/-- Marker used in the diagnostic artifact: `!` on the mismatch line,
a space elsewhere (applier.go:424-428). -/
def flagMark (n mismatchLine : Nat) : String :=
  if n = mismatchLine then "!" else " "

/-- The lines of the diagnostic artifact built by `saveMismatchDiff`
(applier.go:407-483), in order: header, the raw hunk, the expected lines
with the mismatch flagged, the actual lines at the candidate location
flagged identically, a synthesized unified diff with five context lines
on each side, and the raw suggested replacement text. -/
def mismatchDiffLines (c : ReviewComment) (fileLines : List String)
    (targetLine : Nat) (expectedLines : List String) (mismatchLine : Nat) :
    List String :=
  let contextStart := targetLine - 5
  let contextEnd := min (targetLine + expectedLines.length + 5) fileLines.length
  ["# Diagnostic diff for comment ID " ++ toString c.id,
   "# File: " ++ c.path,
   "# Comment URL: " ++ c.htmlUrl,
   "# Mismatch at line: " ++ toString mismatchLine,
   "# Comment info: Line=" ++ toString c.line ++ ", OriginalLine=" ++
     toString c.originalLine ++ ", DiffSide=" ++ sideStr c.diffSide ++
     ", IsOutdated=" ++ toString c.isOutdated,
   "#",
   "# Original diff hunk from GitHub:"]
  ++ (splitNl c.diffHunk).map (fun l => "# " ++ l)
  ++ ["#", "# EXPECTED (from GitHub review):"]
  ++ (List.range expectedLines.length).map (fun i =>
       "# " ++ flagMark (targetLine + i + 1) mismatchLine ++ " [" ++
         toString (targetLine + i + 1) ++ "] " ++ expectedLines.getD i "")
  ++ ["#", "# ACTUAL (current file content):"]
  ++ (List.range (min expectedLines.length (fileLines.length - targetLine))).map
       (fun i =>
         "# " ++ flagMark (targetLine + i + 1) mismatchLine ++ " [" ++
           toString (targetLine + i + 1) ++ "] " ++ fileLines.getD (targetLine + i) "")
  ++ ["#", "# Unified diff (proper format):", "#",
      "--- a/" ++ c.path ++ " (expected based on review)",
      "+++ b/" ++ c.path ++ " (actual current content)",
      "@@ -" ++ toString (targetLine + 1) ++ "," ++ toString expectedLines.length ++
        " +" ++ toString (targetLine + 1) ++ "," ++ toString expectedLines.length ++ " @@"]
  ++ (List.range' contextStart (min targetLine fileLines.length - contextStart)).map
       (fun i => " " ++ fileLines.getD i "")
  ++ expectedLines.map (fun l => "-" ++ l)
  ++ (List.range' targetLine (min (targetLine + expectedLines.length) fileLines.length - targetLine)).map
       (fun i => "+" ++ fileLines.getD i "")
  ++ (List.range' (targetLine + expectedLines.length)
        (contextEnd - (targetLine + expectedLines.length))).map
       (fun i => " " ++ fileLines.getD i "")
  ++ ["", "#", "# Suggested change from review:", "#"]
  ++ (splitNl c.suggestedCode).map (fun l => "# > " ++ l)

/-- The full text of the diagnostic artifact; every builder write ends
with a newline, so the content is the lines joined by newlines plus a
final newline. -/
def buildMismatchDiff (c : ReviewComment) (fileLines : List String)
    (targetLine : Nat) (expectedLines : List String) (mismatchLine : Nat) :
    String :=
  joinNl (mismatchDiffLines c fileLines targetLine expectedLines mismatchLine) ++ "\n"

/-- The artifact writer `saveMismatchDiff` (applier.go:404-492): writes the diagnostic
artifact and returns its path, or `""` when the write fails.  The write
outcome is external; it is modelled by the oracle `saveOk`. -/
def saveMismatchDiff (saveOk : Bool) (c : ReviewComment) : String :=
  if saveOk then mismatchDiffPath c.id else ""

/-- The final defensive verification of `findReplacementTarget`
(applier.go:384-398): re-checks bounds and content at the chosen target;
a mismatch produces the diagnostic artifact and the content-mismatch
error, an out-of-range target the out-of-bounds error. -/
def finalVerify (saveOk : Bool) (c : ReviewComment)
    (fileLines addedLines : List String) (targetLine : Int) :
    Except ApplyError (Int × Nat) :=
  if 0 ≤ targetLine ∧ targetLine.toNat + addedLines.length ≤ fileLines.length then
    match firstMismatch fileLines addedLines targetLine.toNat with
    | some j =>
      let mismatchLine := targetLine.toNat + j + 1
      Except.error (ApplyError.contentMismatch mismatchLine (saveMismatchDiff saveOk c))
    | none => Except.ok (targetLine, addedLines.length)
  else
    Except.error (ApplyError.outOfBounds targetLine fileLines.length)

/-- The Strategy 1 verification of `findReplacementTarget`
(applier.go:338-354): the position-mapped target is accepted only when it
is not the `-1` sentinel, the block fits in the file, and the block
equals the added lines.  The Go loop indexes `fileLines[targetLine+j]`,
defined only for `targetLine ≥ 0`; parsed hunks always give
`targetLine ≥ -1` (`strategy1Target_ge_neg_one`), so the explicit
`0 ≤ targetLine` conjunct is equivalent to the source's
`targetLine != -1` guard. -/
def strategy1Valid (c : ReviewComment) (fileLines : List String) : Bool :=
  let addedLines := getAddedLines c.diffHunk
  let targetLine := strategy1Target c
  if targetLine = -1 then false
  else if 0 ≤ targetLine ∧ targetLine.toNat + addedLines.length ≤ fileLines.length then
    blockEq fileLines addedLines targetLine.toNat
  else false

/-- The target finder `findReplacementTarget` (applier.go:304-401):
derive the added lines from the hunk (empty is an error), try the
verified position-mapping strategy, fall back to the ascending content
search, then run the final defensive verification on the accepted
target. -/
def findReplacementTarget (saveOk : Bool) (c : ReviewComment)
    (fileLines : List String) : Except ApplyError (Int × Nat) :=
  let addedLines := getAddedLines c.diffHunk
  if addedLines.length = 0 then
    Except.error ApplyError.noAddedLines
  else if strategy1Valid c fileLines then
    finalVerify saveOk c fileLines addedLines (strategy1Target c)
  else
    match searchIdx fileLines addedLines with
    | none => Except.error (ApplyError.notFound addedLines.length (addedLines.headD ""))
    | some i => finalVerify saveOk c fileLines addedLines (i : Int)

/-- The suggestion lines of `applySuggestion` (applier.go:270): the
suggested code split on newlines after one trailing newline is
stripped. -/
def suggestionLines (c : ReviewComment) : List String :=
  splitNl (trimOneNl c.suggestedCode)

/-- The spliced line sequence of `applySuggestion` (applier.go:272-284):
the lines before the target, then the suggestion lines, then the lines
after the replaced block (the guarded tail append is `drop`, which is
empty when `t + removeCount` runs past the end). -/
def newFileLines (c : ReviewComment) (fileLines : List String)
    (t removeCount : Nat) : List String :=
  fileLines.take t ++ suggestionLines c ++ fileLines.drop (t + removeCount)

/-- The trailing-newline restoration of `applySuggestion`
(applier.go:290-293): append a newline when the original content ended
with one and the rejoined content does not. -/
def restoreTrailingNl (orig s : String) : String :=
  if endsWithNl orig ∧ ¬ endsWithNl s then s ++ "\n" else s

/-- The pure content transformation of `applySuggestion`
(applier.go:259-293): split the file into lines, find the replacement
target, splice in the suggestion lines, rejoin, and restore the
trailing-newline convention of the original content. -/
def applySuggestionContent (saveOk : Bool) (c : ReviewComment)
    (fileContent : String) : Except ApplyError String :=
  let fileLines := splitNl fileContent
  match findReplacementTarget saveOk c fileLines with
  | Except.error e => Except.error e
  | Except.ok (target, removeCount) =>
    Except.ok (restoreTrailingNl fileContent
      (joinNl (newFileLines c fileLines target.toNat removeCount)))

/-- The environment a suggestion is applied in: the file system (path to
content, `none` for an unreadable file) and the oracles for the two
fallible writes (`writeFails` for the target file, `saveOk` for the
diagnostic artifact). -/
structure World where
  fs : String → Option String
  writeFails : String → Bool
  saveOk : Bool

/-- The per-suggestion step `applySuggestion` (applier.go:251-301) at the file-system level: read
the file at the comment's path, run the content transformation, and write
the result back; on any failure the file system is returned unchanged. -/
def applySuggestionStep (w : World) (c : ReviewComment) : World × Option ApplyError :=
  match w.fs c.path with
  | none => (w, some (ApplyError.readError c.path))
  | some content =>
    match applySuggestionContent w.saveOk c content with
    | Except.error e => (w, some e)
    | Except.ok newContent =>
      if w.writeFails c.path then (w, some (ApplyError.writeError c.path))
      else
        ({ w with fs := fun p => if p = c.path then some newContent else w.fs p }, none)

/-- Outcome of a batch run: the final file system and the counts the
caller accumulates. -/
structure BatchResult where
  world : World
  applied : Nat
  failed : Nat

/-- The batch loop `ApplyAll` (applier.go:56-77): process the suggestions strictly in
input order, each fully resolved before the next begins; count successes
and failures; never abort. -/
def applyAll (w : World) : List ReviewComment → BatchResult
  | [] => ⟨w, 0, 0⟩
  | c :: rest =>
    match applySuggestionStep w c with
    | (w', none) =>
      let r := applyAll w' rest
      ⟨r.world, r.applied + 1, r.failed⟩
    | (w', some _) =>
      let r := applyAll w' rest
      ⟨r.world, r.applied, r.failed + 1⟩

/-- Modelled from the spec: the result of
`diffposition.CalculateCommentPosition` (absent from src); purely
advisory display metadata. -/
structure PositionResult where
  isOutdated : Bool
deriving DecidableEq, Repr

/-- Modelled from the spec: `diffposition.CalculateCommentPosition`
(absent from src).  Parses the hunk; the comment is outdated when the
hunk's line-number range on the comment's side (new-file range for
`Right`, old-file range for `Left`) does not cover the comment's
relevant line number; a parse failure is an error. -/
def calculateCommentPosition (line originalLine : Int) (hunkText : String)
    (side : DiffSide) : Except String PositionResult :=
  match parseDiffHunk hunkText with
  | Except.error e => Except.error e
  | Except.ok h =>
    match side with
    | DiffSide.right =>
      Except.ok ⟨decide (line < (h.newStart : Int) ∨
        (h.newStart : Int) + (h.newCount : Int) - 1 < line)⟩
    | DiffSide.left =>
      Except.ok ⟨decide (originalLine < (h.oldStart : Int) ∨
        (h.oldStart : Int) + (h.oldCount : Int) - 1 < originalLine)⟩

/-- The outdated-flag computation of `FetchReviewComments`
(review_dialog.go:729-742): an empty hunk or a position-calculation
error leaves the flag `false`. -/
def computeIsOutdated (line originalLine : Int) (hunkText : String)
    (side : DiffSide) : Bool :=
  if hunkText = "" then false
  else
    match calculateCommentPosition line originalLine hunkText side with
    | Except.error _ => false
    | Except.ok pos => pos.isOutdated

/-- Whitespace characters of RE2's character class `\s`
(`[\t\n\f\r ]`), used by the `\s*` of the suggestion-fence regex. -/
def isWsChar (ch : Char) : Bool :=
  ch == ' ' || ch == '\t' || ch == '\n' || ch == '\x0c' || ch == '\r'

/-- The effect of the regex fragment `\s*\n` after the open token
(greedy `\s*` with backtracking): consume whitespace through the last
newline of the maximal whitespace run; fail when that run contains no
newline. -/
def dropThroughLastNl : List Char → Option (List Char)
  | [] => none
  | c :: rest =>
    if isWsChar c then
      match dropThroughLastNl rest with
      | some r => some r
      | none => if c = '\n' then some rest else none
    else none

/-- The effect of the lazy regex fragment `.*?` + three backticks under
`(?s)`: split at the first occurrence of the closing fence, returning the
characters before it and the rest after it. -/
def splitAtClose : List Char → Option (List Char × List Char)
  | [] => none
  | c :: rest =>
    match stripLit "```".data (c :: rest) with
    | some r => some ([], r)
    | none => (splitAtClose rest).map (fun pr => (c :: pr.1, pr.2))

/-- Match of the suggestion-fence pattern anchored at the head of the
character list (the regex of part_004 line 46, ui.suggestionBlockRe):
the literal open token, whitespace through a newline, then lazily up to
the closing fence.  Returns the inner characters and the rest after the
match. -/
def matchBlockAt (cs : List Char) : Option (List Char × List Char) :=
  match stripLit "```suggestion".data cs with
  | none => none
  | some afterTok =>
    match dropThroughLastNl afterTok with
    | none => none
    | some afterOpen => splitAtClose afterOpen

/-- Leftmost match of the suggestion-fence pattern: the characters before
the match, the inner text, and the rest after the match. -/
def findBlock : List Char → Option (List Char × List Char × List Char)
  | [] => none
  | c :: rest =>
    match matchBlockAt (c :: rest) with
    | some (inner, r) => some ([], inner, r)
    | none =>
      (findBlock rest).map (fun pir => (c :: pir.1, pir.2.1, pir.2.2))

/-- Strip one trailing newline from a character list. -/
def trimTrailNl (cs : List Char) : List Char :=
  if cs.getLast? = some '\n' then cs.dropLast else cs

/-- Modelled from the spec: `parser.ParseSuggestion` (absent from src;
spec section 4.3 `extractSuggestion`): the first fenced suggestion block
wins, matched with the identical fence rule as `StripSuggestionBlock`;
the inner text is returned verbatim with the fence's one trailing
newline stripped (the leading one is part of the open fence); `""` when
no block exists. -/
def parseSuggestion (body : String) : String :=
  match findBlock body.data with
  | none => ""
  | some (_, inner, _) => String.mk (trimTrailNl inner)

/-- Removal of every suggestion-fence match, left to right, resuming
after each match, as `ReplaceAllString` with the empty replacement does
(part_004 line 169).  The fuel argument bounds the recursion; each step
consumes at least one character, so fuel equal to the input length is
always sufficient. -/
def stripBlocksFuel : Nat → List Char → List Char
  | 0, cs => cs
  | _, [] => []
  | fuel + 1, c :: rest =>
    match matchBlockAt (c :: rest) with
    | some (_, r) => stripBlocksFuel fuel r
    | none => c :: stripBlocksFuel fuel rest

/-- Removal of every suggestion-fence match from a character list. -/
def stripBlocksChars (cs : List Char) : List Char :=
  stripBlocksFuel cs.length cs

/-- The effect of the lazy fragment `.*?\)` of the image regex: the rest
after the first closing parenthesis, with no newline crossed (`.` does
not match a newline here). -/
def scanParen : List Char → Option (List Char)
  | [] => none
  | c :: rest =>
    if c = ')' then some rest
    else if c = '\n' then none
    else scanParen rest

/-- Match of the tail of the image regex `!\[.*?\]\(.*?\)` after the
literal `![`: backtracking scan to a `](` followed by a closing
parenthesis, crossing no newline.  Returns the rest after the match. -/
def matchImageTail : List Char → Option (List Char)
  | [] => none
  | c :: rest =>
    if c = '\n' then none
    else if c = ']' then
      match rest with
      | '(' :: rest2 =>
        match scanParen rest2 with
        | some r => some r
        | none => matchImageTail rest
      | _ => matchImageTail rest
    else matchImageTail rest

/-- Removal of every markdown-image match (part_004 line 172), left to
right, fuel-bounded as in `stripBlocksFuel`. -/
def removeImagesFuel : Nat → List Char → List Char
  | 0, cs => cs
  | _, [] => []
  | fuel + 1, c :: rest =>
    if c = '!' then
      match rest with
      | '[' :: rest2 =>
        match matchImageTail rest2 with
        | some r => removeImagesFuel fuel r
        | none => c :: removeImagesFuel fuel rest
      | _ => c :: removeImagesFuel fuel rest
    else c :: removeImagesFuel fuel rest

/-- Removal of every markdown-image match from a character list. -/
def removeImages (cs : List Char) : List Char :=
  removeImagesFuel cs.length cs

/-- ASCII subset of the whitespace trimmed by Go's `strings.TrimSpace`. -/
def isSpaceChar (ch : Char) : Bool :=
  ch == ' ' || ch == '\t' || ch == '\n' || ch == '\x0b' || ch == '\x0c' || ch == '\r'

/-- Go's `strings.TrimSpace` on a character list (ASCII whitespace). -/
def trimSpaceChars (cs : List Char) : List Char :=
  ((cs.dropWhile isSpaceChar).reverse.dropWhile isSpaceChar).reverse

/-- The body cleaner `ui.StripSuggestionBlock` (part_004 lines 164-175):
trim, remove every suggestion block, remove every markdown image, trim
again. -/
def stripSuggestionBlock (body : String) : String :=
  String.mk (trimSpaceChars (removeImages (stripBlocksChars (trimSpaceChars body.data))))

/-- Concrete review comment of the spec's scenario (section 8): hunk
`@@ -10,3 +10,5 @@` with added lines `added1`, `added2` and suggestion
`fixed1\nfixed2\n`. -/
def cEx : ReviewComment :=
  ⟨7, "main.go", 11, 10, "b",
   "@@ -10,3 +10,5 @@\n context\n+added1\n+added2\n context2",
   DiffSide.right, "fixed1\nfixed2\n", false, "u"⟩

/-- Concrete file content matching the scenario: `added1` sits at
0-based line 10, as the hunk predicts, and the content ends with a
newline. -/
def fileEx : String :=
  "l0\nl1\nl2\nl3\nl4\nl5\nl6\nl7\nl8\ncontext\nadded1\nadded2\ncontext2\n"

/-- Concrete comment whose hunk has no add lines (a pure deletion). -/
def cNoAdd : ReviewComment :=
  ⟨8, "main.go", 1, 1, "b", "@@ -1,2 +1,1 @@\n context\n-gone",
   DiffSide.right, "s\n", false, "u"⟩

/-- Concrete comment whose added line `gamma` occurs nowhere in the
target file. -/
def cNF : ReviewComment :=
  ⟨9, "a.txt", 1, 1, "b", "@@ -1,1 +1,1 @@\n+gamma",
   DiffSide.right, "delta\n", false, "u"⟩

/-- Concrete world: `main.go` holds the scenario file, `a.txt` holds two
unrelated lines, writes succeed, and the diagnostic artifact write
succeeds. -/
def wEx : World :=
  ⟨fun p => if p = "main.go" then some fileEx
            else if p = "a.txt" then some "alpha\nbeta\n" else none,
   fun _ => false, true⟩

/-- Concrete comment body holding two suggestion blocks. -/
def bodyTwo : String :=
  "a\n```suggestion\nfoo\n```\nmid\n```suggestion\nbar\n```"

/-- Concrete comment whose expected line `expected` mismatches the file
line `actual`, for exercising the diagnostic artifact builder. -/
def cMis : ReviewComment :=
  ⟨11, "m.txt", 1, 1, "b", "@@ -1,1 +1,1 @@\n+expected",
   DiffSide.right, "sugg\n", false, "u"⟩

lemma blockEq_iff {f a : List String} {i : Nat} :
    blockEq f a i = true ↔ (f.drop i).take a.length = a := by
  simp [blockEq]

lemma blockEq_bound {f a : List String} {i : Nat} (ha : a.length ≠ 0)
    (h : blockEq f a i = true) : i + a.length ≤ f.length := by
  rw [blockEq_iff] at h
  have hl := congrArg List.length h
  rw [List.length_take, List.length_drop] at hl
  have hmin := Nat.min_le_right a.length (f.length - i)
  rw [hl] at hmin
  omega

lemma pointwise_of_slice {f a : List String} {t : Nat}
    (he : (f.drop t).take a.length = a) :
    ∀ j, j < a.length → f.getD (t + j) "" = a.getD j "" := by
  intro j hj
  have h : ((f.drop t).take a.length)[j]? = a[j]? := by rw [he]
  rw [List.getElem?_take, if_pos hj, List.getElem?_drop] at h
  rw [List.getD_eq_getElem?_getD, List.getD_eq_getElem?_getD, h]

lemma slice_of_pointwise {f a : List String} {t : Nat}
    (hb : t + a.length ≤ f.length)
    (hp : ∀ j, j < a.length → f.getD (t + j) "" = a.getD j "") :
    (f.drop t).take a.length = a := by
  apply List.ext_getElem?
  intro n
  rw [List.getElem?_take]
  by_cases hn : n < a.length
  · rw [if_pos hn, List.getElem?_drop]
    have h1 : t + n < f.length := by omega
    have h := hp n hn
    rw [List.getD_eq_getElem?_getD, List.getD_eq_getElem?_getD] at h
    rw [List.getElem?_eq_getElem h1, List.getElem?_eq_getElem hn]
    rw [List.getElem?_eq_getElem h1, List.getElem?_eq_getElem hn] at h
    simpa using h
  · rw [if_neg hn, List.getElem?_eq_none (by omega)]

lemma searchIdx_some {f a : List String} {t : Nat}
    (h : searchIdx f a = some t) :
    t + a.length ≤ f.length ∧ blockEq f a t = true ∧
      ∀ j, j < t → blockEq f a j = false := by
  rw [searchIdx, List.range_eq_range', List.find?_range'_eq_some] at h
  obtain ⟨hp, hmem, hmin⟩ := h
  rw [List.mem_range'_1] at hmem
  refine ⟨by omega, hp, fun j hj => ?_⟩
  have := hmin j (Nat.zero_le j) hj
  simpa using this

lemma searchIdx_none {f a : List String}
    (h : searchIdx f a = none) :
    ∀ j, j + a.length ≤ f.length → blockEq f a j = false := by
  intro j hj
  rw [searchIdx, List.find?_eq_none] at h
  have hjm : j ∈ List.range (f.length + 1 - a.length) := by
    rw [List.mem_range]; omega
  simpa using h j hjm

lemma firstMismatch_some {f a : List String} {t k : Nat}
    (h : firstMismatch f a t = some k) :
    k < a.length ∧ f.getD (t + k) "" ≠ a.getD k "" ∧
      ∀ m, m < k → f.getD (t + m) "" = a.getD m "" := by
  rw [firstMismatch, List.range_eq_range', List.find?_range'_eq_some] at h
  obtain ⟨hp, hmem, hmin⟩ := h
  rw [List.mem_range'_1] at hmem
  refine ⟨by omega, by simpa using hp, fun m hm => ?_⟩
  have := hmin m (Nat.zero_le m) hm
  simpa using this

lemma firstMismatch_eq_none_iff {f a : List String} {t : Nat}
    (hb : t + a.length ≤ f.length) :
    firstMismatch f a t = none ↔ blockEq f a t = true := by
  constructor
  · intro h
    rw [firstMismatch, List.find?_eq_none] at h
    rw [blockEq_iff]
    refine slice_of_pointwise hb fun j hj => ?_
    have := h j (by rw [List.mem_range]; exact hj)
    simpa using this
  · intro h
    cases hm : firstMismatch f a t with
    | none => rfl
    | some k =>
      obtain ⟨hk, hne, _⟩ := firstMismatch_some hm
      exact absurd (pointwise_of_slice (blockEq_iff.mp h) k hk) hne

lemma strategy1Target_ge_neg_one (c : ReviewComment) :
    -1 ≤ strategy1Target c := by
  unfold strategy1Target
  split
  · omega
  · split
    · omega
    · split
      · unfold getZeroBased; omega
      · omega

lemma finalVerify_ok {saveOk : Bool} {c : ReviewComment}
    {f a : List String} {tl : Int}
    (h0 : 0 ≤ tl) (hbound : tl.toNat + a.length ≤ f.length)
    (hb : blockEq f a tl.toNat = true) :
    finalVerify saveOk c f a tl = Except.ok (tl, a.length) := by
  unfold finalVerify
  rw [if_pos ⟨h0, hbound⟩, (firstMismatch_eq_none_iff hbound).mpr hb]

lemma strategy1Valid_elim {c : ReviewComment} {f : List String}
    (h : strategy1Valid c f = true) :
    0 ≤ strategy1Target c ∧
      (strategy1Target c).toNat + (getAddedLines c.diffHunk).length ≤ f.length ∧
      blockEq f (getAddedLines c.diffHunk) (strategy1Target c).toNat = true := by
  simp only [strategy1Valid] at h
  split at h
  · exact absurd h (by simp)
  · split at h
    · next hc => exact ⟨hc.1, hc.2, h⟩
    · exact absurd h (by simp)

lemma frt_noAdded {saveOk : Bool} {c : ReviewComment} {f : List String}
    (ha : (getAddedLines c.diffHunk).length = 0) :
    findReplacementTarget saveOk c f = Except.error ApplyError.noAddedLines := by
  simp only [findReplacementTarget]
  rw [if_pos ha]

lemma frt_cases (saveOk : Bool) (c : ReviewComment) (f : List String) :
    (findReplacementTarget saveOk c f = Except.error ApplyError.noAddedLines ∧
      (getAddedLines c.diffHunk).length = 0) ∨
    (∃ t : Nat,
      findReplacementTarget saveOk c f =
        Except.ok ((t : Int), (getAddedLines c.diffHunk).length) ∧
      (getAddedLines c.diffHunk).length ≠ 0 ∧
      t + (getAddedLines c.diffHunk).length ≤ f.length ∧
      blockEq f (getAddedLines c.diffHunk) t = true) ∨
    (findReplacementTarget saveOk c f =
        Except.error (ApplyError.notFound (getAddedLines c.diffHunk).length
          ((getAddedLines c.diffHunk).headD "")) ∧
      (getAddedLines c.diffHunk).length ≠ 0 ∧
      ∀ j, j + (getAddedLines c.diffHunk).length ≤ f.length →
        blockEq f (getAddedLines c.diffHunk) j = false) := by
  by_cases ha : (getAddedLines c.diffHunk).length = 0
  · exact Or.inl ⟨frt_noAdded ha, ha⟩
  · right
    by_cases hs : strategy1Valid c f = true
    · left
      obtain ⟨h0, hbound, hb⟩ := strategy1Valid_elim hs
      refine ⟨(strategy1Target c).toNat, ?_, ha, hbound, hb⟩
      simp only [findReplacementTarget]
      rw [if_neg ha, if_pos hs,
          show (((strategy1Target c).toNat : Nat) : Int) = strategy1Target c from
            Int.toNat_of_nonneg h0]
      exact finalVerify_ok h0 hbound hb
    · cases hsg : searchIdx f (getAddedLines c.diffHunk) with
      | none =>
        right
        refine ⟨?_, ha, searchIdx_none hsg⟩
        simp only [findReplacementTarget]
        rw [if_neg ha, if_neg hs, hsg]
      | some i =>
        left
        obtain ⟨hbound, hb, _⟩ := searchIdx_some hsg
        refine ⟨i, ?_, ha, hbound, hb⟩
        simp only [findReplacementTarget]
        rw [if_neg ha, if_neg hs, hsg]
        exact finalVerify_ok (by omega)
          (by rwa [Int.toNat_ofNat]) (by rwa [Int.toNat_ofNat])

lemma endsWithNl_append_nl (s : String) : endsWithNl (s ++ "\n") = true := by
  rw [endsWithNl, String.data_append]
  show (s.data ++ ['\n']).getLast? == some '\n'
  rw [List.getLast?_concat]
  rfl

lemma restoreTrailingNl_ends {orig s : String} (h : endsWithNl orig = true) :
    endsWithNl (restoreTrailingNl orig s) = true := by
  rw [restoreTrailingNl]
  by_cases hs : endsWithNl s = true
  · rw [if_neg (by simp [hs])]
    exact hs
  · rw [if_pos ⟨h, by simpa using hs⟩]
    exact endsWithNl_append_nl s

lemma newFileLines_before {c : ReviewComment} {f : List String} {t k i : Nat}
    (ht : t ≤ f.length) (hi : i < t) :
    (newFileLines c f t k)[i]? = f[i]? := by
  rw [newFileLines, List.append_assoc, List.getElem?_append,
      if_pos (by rw [List.length_take]; omega), List.getElem?_take, if_pos hi]

lemma newFileLines_after {c : ReviewComment} {f : List String} {t k j : Nat}
    (ht : t ≤ f.length) :
    (newFileLines c f t k)[t + (suggestionLines c).length + j]? =
      f[t + k + j]? := by
  rw [newFileLines, List.append_assoc,
      List.getElem?_append_right (by rw [List.length_take]; omega),
      List.getElem?_append_right (by rw [List.length_take]; omega),
      List.getElem?_drop]
  congr 1
  rw [List.length_take]
  omega

lemma applyContent_error {saveOk : Bool} {c : ReviewComment}
    {content : String} {e : ApplyError}
    (h : findReplacementTarget saveOk c (splitNl content) = Except.error e) :
    applySuggestionContent saveOk c content = Except.error e := by
  simp only [applySuggestionContent]
  rw [h]

lemma applyStep_of_error {w : World} {c : ReviewComment}
    {content : String} {e : ApplyError}
    (hread : w.fs c.path = some content)
    (h : applySuggestionContent w.saveOk c content = Except.error e) :
    applySuggestionStep w c = (w, some e) := by
  simp only [applySuggestionStep, hread, h]

/-- C10: in `findReplacementTarget` every access to `fileLines` is in
bounds and the final defensive verification cannot fail: the
content-mismatch and out-of-bounds error returns are unreachable; when
the file is shorter than the added block the Strategy 2 scan performs
zero iterations and the not-found error is returned; and any accepted
target satisfies `0 ≤ target`, `target + len(addedLines) ≤
len(fileLines)`, and block equality with the added lines. -/
theorem C10_defensive_checks_unreachable (saveOk : Bool) (c : ReviewComment)
    (fileLines : List String) :
    (∀ mline df, findReplacementTarget saveOk c fileLines ≠
        Except.error (ApplyError.contentMismatch mline df)) ∧
    (∀ tl n, findReplacementTarget saveOk c fileLines ≠
        Except.error (ApplyError.outOfBounds tl n)) ∧
    (fileLines.length < (getAddedLines c.diffHunk).length →
      findReplacementTarget saveOk c fileLines =
        Except.error (ApplyError.notFound (getAddedLines c.diffHunk).length
          ((getAddedLines c.diffHunk).headD ""))) ∧
    (∀ tl k, findReplacementTarget saveOk c fileLines = Except.ok (tl, k) →
      0 ≤ tl ∧ tl.toNat + k ≤ fileLines.length ∧
        k = (getAddedLines c.diffHunk).length ∧
        (fileLines.drop tl.toNat).take k = getAddedLines c.diffHunk) := by
  rcases frt_cases saveOk c fileLines with
    ⟨h, ha⟩ | ⟨t, h, ha, hbound, hb⟩ | ⟨h, ha, hall⟩
  · refine ⟨fun mline df => by simp [h], fun tl n => by simp [h],
            fun hlen => by omega, fun tl k hk => ?_⟩
    rw [h] at hk
    exact (nomatch hk)
  · refine ⟨fun mline df => by simp [h], fun tl n => by simp [h],
            fun hlen => by omega, fun tl k hk => ?_⟩
    rw [h] at hk
    obtain ⟨rfl, rfl⟩ : (t : Int) = tl ∧ (getAddedLines c.diffHunk).length = k := by
      constructor <;> [skip; skip] <;> injection hk with h1 <;>
        [exact congrArg Prod.fst h1; exact congrArg Prod.snd h1]
    rw [Int.toNat_ofNat]
    exact ⟨by omega, hbound, rfl, blockEq_iff.mp hb⟩
  · refine ⟨fun mline df => by simp [h], fun tl n => by simp [h],
            fun hlen => h, fun tl k hk => ?_⟩
    rw [h] at hk
    exact (nomatch hk)

/-- Witness for C10: a file of one line is shorter than the two added
lines of the scenario comment, so the scan is empty and the not-found
error is returned. -/
theorem C10_defensive_checks_unreachable_witness :
    (splitNl "x").length < (getAddedLines cEx.diffHunk).length ∧
    findReplacementTarget true cEx (splitNl "x") =
      Except.error (ApplyError.notFound (getAddedLines cEx.diffHunk).length
        ((getAddedLines cEx.diffHunk).headD "")) :=
  ⟨by decide,
   (C10_defensive_checks_unreachable true cEx (splitNl "x")).2.2.1 (by decide)⟩

lemma slice_empty_of_ge {f a : List String} {i : Nat}
    (hi : f.length ≤ i) (ha : a ≠ []) :
    (f.drop i).take a.length ≠ a := by
  rw [List.drop_eq_nil_of_le hi, List.take_nil]
  exact fun h => ha h.symm

/-- C2: for a comment with non-empty added lines and a file containing
no occurrence of the added lines as a contiguous block,
`applySuggestion` fails with the not-found error and the file system is
returned unchanged (no write happens on any failure of
`findReplacementTarget`). -/
theorem C2_not_found_leaves_file_untouched (w : World) (c : ReviewComment)
    (content : String)
    (hread : w.fs c.path = some content)
    (ha : (getAddedLines c.diffHunk).length ≠ 0)
    (hno : ∀ i, ((splitNl content).drop i).take (getAddedLines c.diffHunk).length ≠
      getAddedLines c.diffHunk) :
    findReplacementTarget w.saveOk c (splitNl content) =
      Except.error (ApplyError.notFound (getAddedLines c.diffHunk).length
        ((getAddedLines c.diffHunk).headD "")) ∧
    applySuggestionStep w c =
      (w, some (ApplyError.notFound (getAddedLines c.diffHunk).length
        ((getAddedLines c.diffHunk).headD ""))) := by
  have hfrt : findReplacementTarget w.saveOk c (splitNl content) =
      Except.error (ApplyError.notFound (getAddedLines c.diffHunk).length
        ((getAddedLines c.diffHunk).headD "")) := by
    rcases frt_cases w.saveOk c (splitNl content) with
      ⟨h, ha0⟩ | ⟨t, h, _, hbound, hb⟩ | ⟨h, _, _⟩
    · exact absurd ha0 ha
    · exact absurd (blockEq_iff.mp hb) (hno t)
    · exact h
  exact ⟨hfrt, applyStep_of_error hread (applyContent_error hfrt)⟩

/-- Witness for C2: the added line `gamma` occurs nowhere in
`alpha\nbeta\n`, the apply step fails with not-found, and the world is
returned unchanged. -/
theorem C2_not_found_witness :
    wEx.fs cNF.path = some "alpha\nbeta\n" ∧
    applySuggestionStep wEx cNF = (wEx, some (ApplyError.notFound 1 "gamma")) := by
  have hread : wEx.fs cNF.path = some "alpha\nbeta\n" := rfl
  have ha : (getAddedLines cNF.diffHunk).length ≠ 0 := by decide
  have hl : (splitNl "alpha\nbeta\n").length = 3 := by decide
  have hno : ∀ i, ((splitNl "alpha\nbeta\n").drop i).take
      (getAddedLines cNF.diffHunk).length ≠ getAddedLines cNF.diffHunk := by
    intro i
    match i with
    | 0 => decide
    | 1 => decide
    | 2 => decide
    | n + 3 => exact slice_empty_of_ge (by omega) (by decide)
  have h := (C2_not_found_leaves_file_untouched wEx cNF "alpha\nbeta\n"
    hread ha hno).2
  have e1 : (getAddedLines cNF.diffHunk).length = 1 := by decide
  have e2 : (getAddedLines cNF.diffHunk).headD "" = "gamma" := by decide
  rw [e1, e2] at h
  exact ⟨hread, h⟩

/-- C4: a comment whose diff hunk yields no added lines makes
`findReplacementTarget` fail with the no-added-lines error before any
target position is computed, and the apply step leaves the file system
unchanged. -/
theorem C4_no_added_lines (saveOk : Bool) (c : ReviewComment)
    (fileLines : List String) (w : World) (content : String)
    (ha : getAddedLines c.diffHunk = []) :
    findReplacementTarget saveOk c fileLines =
      Except.error ApplyError.noAddedLines ∧
    (w.fs c.path = some content →
      applySuggestionStep w c = (w, some ApplyError.noAddedLines)) := by
  have h0 : (getAddedLines c.diffHunk).length = 0 := by rw [ha]; rfl
  exact ⟨frt_noAdded h0,
         fun hread => applyStep_of_error hread (applyContent_error (frt_noAdded h0))⟩

/-- Witness for C4: a pure-deletion hunk has no added lines and the
apply step fails without touching the world. -/
theorem C4_no_added_lines_witness :
    getAddedLines cNoAdd.diffHunk = [] ∧
    applySuggestionStep wEx cNoAdd = (wEx, some ApplyError.noAddedLines) := by
  have ha : getAddedLines cNoAdd.diffHunk = [] := by decide
  exact ⟨ha, (C4_no_added_lines wEx.saveOk cNoAdd [] wEx fileEx ha).2 rfl⟩

lemma searchIdx_eq_some {f a : List String} {i : Nat} (ha : a.length ≠ 0)
    (hb : blockEq f a i = true) (hmin : ∀ j, j < i → blockEq f a j = false) :
    searchIdx f a = some i := by
  rw [searchIdx, List.range_eq_range', List.find?_range'_eq_some]
  have hbound := blockEq_bound ha hb
  refine ⟨hb, ?_, fun j _ hj => by simp [hmin j hj]⟩
  rw [List.mem_range'_1]
  omega

lemma frt_ok_elim {saveOk : Bool} {c : ReviewComment} {f : List String}
    {tl : Int} {k : Nat}
    (h : findReplacementTarget saveOk c f = Except.ok (tl, k)) :
    0 ≤ tl ∧ tl.toNat + k ≤ f.length ∧ k = (getAddedLines c.diffHunk).length ∧
      (f.drop tl.toNat).take k = getAddedLines c.diffHunk := by
  rcases frt_cases saveOk c f with
    ⟨he, _⟩ | ⟨t, he, _, hbound, hb⟩ | ⟨he, _, _⟩
  · rw [he] at h; exact (nomatch h)
  · rw [he] at h
    obtain ⟨rfl, rfl⟩ : (t : Int) = tl ∧ (getAddedLines c.diffHunk).length = k := by
      constructor <;> [skip; skip] <;> injection h with h1 <;>
        [exact congrArg Prod.fst h1; exact congrArg Prod.snd h1]
    rw [Int.toNat_ofNat]
    exact ⟨by omega, hbound, rfl, blockEq_iff.mp hb⟩
  · rw [he] at h; exact (nomatch h)

/-- C3: `findReplacementTarget` attempts position mapping first — the
candidate is the zero-based new-file number of the first add line — and
accepts it exactly when it is not the sentinel, in bounds, and the block
matches; only otherwise does the ascending content scan run, and the
earliest matching block is used instead of failing. -/
theorem C3_position_first_then_content (saveOk : Bool) (c : ReviewComment)
    (fileLines : List String)
    (ha : (getAddedLines c.diffHunk).length ≠ 0) :
    (∀ h l, c.diffHunk ≠ "" → parseDiffHunk c.diffHunk = Except.ok h →
      h.lines.find? (fun dl => dl.kind == LineKind.add) = some l →
      strategy1Target c = (l.newLineNumber : Int) - 1) ∧
    (strategy1Valid c fileLines = true ↔
      strategy1Target c ≠ -1 ∧ 0 ≤ strategy1Target c ∧
      (strategy1Target c).toNat + (getAddedLines c.diffHunk).length ≤ fileLines.length ∧
      blockEq fileLines (getAddedLines c.diffHunk) (strategy1Target c).toNat = true) ∧
    (strategy1Valid c fileLines = true →
      findReplacementTarget saveOk c fileLines =
        Except.ok (strategy1Target c, (getAddedLines c.diffHunk).length)) ∧
    (strategy1Valid c fileLines = false →
      ∀ i, blockEq fileLines (getAddedLines c.diffHunk) i = true →
        (∀ j, j < i → blockEq fileLines (getAddedLines c.diffHunk) j = false) →
        findReplacementTarget saveOk c fileLines =
          Except.ok ((i : Int), (getAddedLines c.diffHunk).length)) := by
  refine ⟨?_, ?_, ?_, ?_⟩
  · intro h l hne hparse hfind
    rw [strategy1Target, if_neg hne]
    simp only [hparse, hfind, getZeroBased]
  · constructor
    · intro hs
      obtain ⟨h0, hbound, hb⟩ := strategy1Valid_elim hs
      exact ⟨by omega, h0, hbound, hb⟩
    · rintro ⟨hne, h0, hbound, hb⟩
      simp only [strategy1Valid]
      rw [if_neg hne, if_pos ⟨h0, hbound⟩]
      exact hb
  · intro hs
    obtain ⟨h0, hbound, hb⟩ := strategy1Valid_elim hs
    simp only [findReplacementTarget]
    rw [if_neg ha, if_pos hs]
    exact finalVerify_ok h0 hbound hb
  · intro hs i hb hmin
    simp only [findReplacementTarget]
    rw [if_neg ha, if_neg (by simp [hs]), searchIdx_eq_some ha hb hmin]
    exact finalVerify_ok (by omega)
      (by rw [Int.toNat_ofNat]; exact blockEq_bound ha hb)
      (by rwa [Int.toNat_ofNat])

/-- Witness for C3: on a file where the position-predicted offset (10)
is out of range but the block sits at index 0, Strategy 1 is rejected
and the content scan accepts index 0. -/
theorem C3_position_first_then_content_witness :
    strategy1Valid cEx ["added1", "added2", "x"] = false ∧
    blockEq ["added1", "added2", "x"] (getAddedLines cEx.diffHunk) 0 = true ∧
    findReplacementTarget true cEx ["added1", "added2", "x"] =
      Except.ok (0, 2) := by
  have hs : strategy1Valid cEx ["added1", "added2", "x"] = false := by decide
  have hb : blockEq ["added1", "added2", "x"] (getAddedLines cEx.diffHunk) 0 = true := by
    decide
  have h := (C3_position_first_then_content true cEx ["added1", "added2", "x"]
      (by decide)).2.2.2 hs 0 hb (fun j hj => absurd hj (Nat.not_lt_zero j))
  rw [show (getAddedLines cEx.diffHunk).length = 2 from by decide] at h
  exact ⟨hs, hb, h⟩

/-- C1: when `findReplacementTarget` accepts a target, the file block
there equals the added lines, and `applySuggestion` rewrites the content
to `fileLines[0:target] ++ suggestionLines ++
fileLines[target+len(addedLines):]` rejoined; every line outside the
replaced block is unchanged, and the rewritten content ends with a line
terminator whenever the original content did. -/
theorem C1_apply_rewrites_block (saveOk : Bool) (c : ReviewComment)
    (content : String) (tl : Int) (k : Nat)
    (h : findReplacementTarget saveOk c (splitNl content) = Except.ok (tl, k)) :
    k = (getAddedLines c.diffHunk).length ∧
    ((splitNl content).drop tl.toNat).take k = getAddedLines c.diffHunk ∧
    applySuggestionContent saveOk c content =
      Except.ok (restoreTrailingNl content
        (joinNl (newFileLines c (splitNl content) tl.toNat k))) ∧
    (∀ i, i < tl.toNat →
      (newFileLines c (splitNl content) tl.toNat k)[i]? =
        (splitNl content)[i]?) ∧
    (∀ j, (newFileLines c (splitNl content) tl.toNat k)[tl.toNat +
        (suggestionLines c).length + j]? =
      (splitNl content)[tl.toNat + k + j]?) ∧
    (endsWithNl content = true →
      ∀ s, applySuggestionContent saveOk c content = Except.ok s →
        endsWithNl s = true) := by
  obtain ⟨h0, hbound, hk, hslice⟩ := frt_ok_elim h
  have ht : tl.toNat ≤ (splitNl content).length := by omega
  have happ : applySuggestionContent saveOk c content =
      Except.ok (restoreTrailingNl content
        (joinNl (newFileLines c (splitNl content) tl.toNat k))) := by
    simp only [applySuggestionContent, h]
  refine ⟨hk, hslice, happ, fun i hi => newFileLines_before ht hi,
          fun j => newFileLines_after ht, fun hnl s hs => ?_⟩
  rw [happ] at hs
  obtain rfl : restoreTrailingNl content
      (joinNl (newFileLines c (splitNl content) tl.toNat k)) = s := by
    injection hs
  exact restoreTrailingNl_ends hnl

/-- Witness for C1: the spec scenario — applying the suggestion to the
scenario file replaces exactly the `added1`, `added2` block with
`fixed1`, `fixed2` and keeps the trailing newline. -/
theorem C1_apply_rewrites_block_witness :
    findReplacementTarget true cEx (splitNl fileEx) = Except.ok (10, 2) ∧
    applySuggestionContent true cEx fileEx =
      Except.ok "l0\nl1\nl2\nl3\nl4\nl5\nl6\nl7\nl8\ncontext\nfixed1\nfixed2\ncontext2\n" ∧
    endsWithNl fileEx = true := by
  have h : findReplacementTarget true cEx (splitNl fileEx) = Except.ok (10, 2) := by
    rfl
  have hc := (C1_apply_rewrites_block true cEx fileEx 10 2 h).2.2.1
  have he : restoreTrailingNl fileEx
      (joinNl (newFileLines cEx (splitNl fileEx) (10 : Int).toNat 2)) =
      "l0\nl1\nl2\nl3\nl4\nl5\nl6\nl7\nl8\ncontext\nfixed1\nfixed2\ncontext2\n" := by
    rfl
  rw [he] at hc
  exact ⟨h, hc, by decide⟩

/-- C8: the `IsOutdated` flag is never consulted by the matching and
replacement algorithm — two comments identical in every field except
`isOutdated` give the same target-finder outcome, the same rewritten
content, and the same file-system effect. -/
theorem C8_outdated_flag_never_consulted (saveOk : Bool) (b1 b2 : Bool)
    (c : ReviewComment) (fileLines : List String) (content : String)
    (w : World) :
    findReplacementTarget saveOk
        ⟨c.id, c.path, c.line, c.originalLine, c.body, c.diffHunk,
         c.diffSide, c.suggestedCode, b1, c.htmlUrl⟩ fileLines =
      findReplacementTarget saveOk
        ⟨c.id, c.path, c.line, c.originalLine, c.body, c.diffHunk,
         c.diffSide, c.suggestedCode, b2, c.htmlUrl⟩ fileLines ∧
    applySuggestionContent saveOk
        ⟨c.id, c.path, c.line, c.originalLine, c.body, c.diffHunk,
         c.diffSide, c.suggestedCode, b1, c.htmlUrl⟩ content =
      applySuggestionContent saveOk
        ⟨c.id, c.path, c.line, c.originalLine, c.body, c.diffHunk,
         c.diffSide, c.suggestedCode, b2, c.htmlUrl⟩ content ∧
    applySuggestionStep w
        ⟨c.id, c.path, c.line, c.originalLine, c.body, c.diffHunk,
         c.diffSide, c.suggestedCode, b1, c.htmlUrl⟩ =
      applySuggestionStep w
        ⟨c.id, c.path, c.line, c.originalLine, c.body, c.diffHunk,
         c.diffSide, c.suggestedCode, b2, c.htmlUrl⟩ :=
  ⟨rfl, rfl, rfl⟩

lemma applyAll_counts (ss : List ReviewComment) :
    ∀ w, (applyAll w ss).applied + (applyAll w ss).failed = ss.length := by
  induction ss with
  | nil => intro w; rfl
  | cons c rest ih =>
    intro w
    rcases h : applySuggestionStep w c with ⟨w', r⟩
    rcases r with _ | e <;>
      · simp only [applyAll, h]
        have := ih w'
        simp only [List.length_cons]
        omega

lemma applyAll_append (ss : List ReviewComment) :
    ∀ w ts, applyAll w (ss ++ ts) =
      ⟨(applyAll (applyAll w ss).world ts).world,
       (applyAll w ss).applied + (applyAll (applyAll w ss).world ts).applied,
       (applyAll w ss).failed + (applyAll (applyAll w ss).world ts).failed⟩ := by
  induction ss with
  | nil => intro w ts; simp [applyAll]
  | cons c rest ih =>
    intro w ts
    rcases h : applySuggestionStep w c with ⟨w', r⟩
    rcases r with _ | e <;>
      · simp only [List.cons_append, applyAll, h, List.append_eq]
        rw [ih w' ts]
        simp only [BatchResult.mk.injEq]
        and_intros <;> first | trivial | omega

/-- C6: the batch loop processes suggestions strictly in input order,
fully resolving each before the next; a failing suggestion (any error,
including a write error) only increments the failed count and the batch
continues; applied and failed counts always sum to the whole input
length. -/
theorem C6_batch_order_and_counts (w : World) (ss ts : List ReviewComment)
    (c : ReviewComment) (w' : World) (e : ApplyError) :
    ((applyAll w ss).applied + (applyAll w ss).failed = ss.length) ∧
    (applyAll w (ss ++ ts) =
      ⟨(applyAll (applyAll w ss).world ts).world,
       (applyAll w ss).applied + (applyAll (applyAll w ss).world ts).applied,
       (applyAll w ss).failed + (applyAll (applyAll w ss).world ts).failed⟩) ∧
    (applySuggestionStep w c = (w', some e) →
      applyAll w (c :: ts) =
        ⟨(applyAll w' ts).world, (applyAll w' ts).applied,
         (applyAll w' ts).failed + 1⟩) ∧
    (applySuggestionStep w c = (w', none) →
      applyAll w (c :: ts) =
        ⟨(applyAll w' ts).world, (applyAll w' ts).applied + 1,
         (applyAll w' ts).failed⟩) := by
  refine ⟨applyAll_counts ss w, applyAll_append ss w ts, fun h => ?_, fun h => ?_⟩
  · simp only [applyAll, h]
  · simp only [applyAll, h]

/-- Witness for C6: a failing suggestion (no added lines) is counted as
failed, the world is unchanged, and the batch result is well formed. -/
theorem C6_batch_order_and_counts_witness :
    applySuggestionStep wEx cNoAdd = (wEx, some ApplyError.noAddedLines) ∧
    applyAll wEx [cNoAdd] =
      ⟨(applyAll wEx []).world, (applyAll wEx []).applied,
       (applyAll wEx []).failed + 1⟩ := by
  have hstep : applySuggestionStep wEx cNoAdd =
      (wEx, some ApplyError.noAddedLines) := rfl
  exact ⟨hstep,
    (C6_batch_order_and_counts wEx [] [] cNoAdd wEx ApplyError.noAddedLines).2.2.1 hstep⟩

/-- C7: for a non-empty hunk that parses, the computed outdated flag is
true exactly when the hunk's range on the comment's side (new-file range
for Right, old-file range for Left) does not cover the comment's
relevant line; an empty hunk or a parse failure resolves to false; and
on `@@ -10,3 +10,5 @@` a Right-side comment at line 20 is flagged while
one at line 12 is not. -/
theorem C7_outdated_flag (line originalLine : Int) (hunk : String)
    (side : DiffSide) :
    (∀ h, hunk ≠ "" → parseDiffHunk hunk = Except.ok h →
      side = DiffSide.right →
      (computeIsOutdated line originalLine hunk side = true ↔
        (line < (h.newStart : Int) ∨
         (h.newStart : Int) + (h.newCount : Int) - 1 < line))) ∧
    (∀ h, hunk ≠ "" → parseDiffHunk hunk = Except.ok h →
      side = DiffSide.left →
      (computeIsOutdated line originalLine hunk side = true ↔
        (originalLine < (h.oldStart : Int) ∨
         (h.oldStart : Int) + (h.oldCount : Int) - 1 < originalLine))) ∧
    (hunk = "" → computeIsOutdated line originalLine hunk side = false) ∧
    (∀ e, parseDiffHunk hunk = Except.error e →
      computeIsOutdated line originalLine hunk side = false) ∧
    computeIsOutdated 20 10 "@@ -10,3 +10,5 @@" DiffSide.right = true ∧
    computeIsOutdated 12 10 "@@ -10,3 +10,5 @@" DiffSide.right = false := by
  refine ⟨?_, ?_, ?_, ?_, by decide, by decide⟩
  · rintro h hne hparse rfl
    rw [computeIsOutdated, if_neg hne]
    simp only [calculateCommentPosition, hparse, decide_eq_true_eq]
  · rintro h hne hparse rfl
    rw [computeIsOutdated, if_neg hne]
    simp only [calculateCommentPosition, hparse, decide_eq_true_eq]
  · intro he
    rw [computeIsOutdated, if_pos he]
  · intro e hparse
    by_cases hne : hunk = ""
    · rw [computeIsOutdated, if_pos hne]
    · rw [computeIsOutdated, if_neg hne]
      simp only [calculateCommentPosition, hparse]

/-- Witness for C7: the hunk of the spec's example parses with new-range
start 10 and count 5, and a Right-side comment at line 20 is flagged
outdated. -/
theorem C7_outdated_flag_witness :
    parseDiffHunk "@@ -10,3 +10,5 @@" = Except.ok ⟨10, 3, 10, 5, []⟩ ∧
    computeIsOutdated 20 10 "@@ -10,3 +10,5 @@" DiffSide.right = true := by
  have hparse : parseDiffHunk "@@ -10,3 +10,5 @@" = Except.ok ⟨10, 3, 10, 5, []⟩ := by
    rfl
  have h := (C7_outdated_flag 20 10 "@@ -10,3 +10,5 @@" DiffSide.right).1
    ⟨10, 3, 10, 5, []⟩ (by decide) hparse rfl
  exact ⟨hparse, h.mpr (by decide)⟩

lemma stripLit_length : ∀ (ts cs r : List Char),
    stripLit ts cs = some r → r.length + ts.length = cs.length := by
  intro ts
  induction ts with
  | nil =>
    intro cs r h
    obtain rfl : cs = r := by injection h
    simp
  | cons t ts ih =>
    intro cs r h
    cases cs with
    | nil => exact (nomatch h)
    | cons c cs' =>
      rw [stripLit] at h
      split at h
      · have := ih cs' r h
        simp only [List.length_cons]
        omega
      · exact (nomatch h)

lemma dropThroughLastNl_length : ∀ (cs r : List Char),
    dropThroughLastNl cs = some r → r.length < cs.length := by
  intro cs
  induction cs with
  | nil => intro r h; exact (nomatch h)
  | cons c rest ih =>
    intro r h
    rw [dropThroughLastNl] at h
    by_cases hw : isWsChar c = true
    · rw [if_pos hw] at h
      cases hrec : dropThroughLastNl rest with
      | some r' =>
        rw [hrec] at h
        obtain rfl : r' = r := by injection h
        have := ih _ hrec
        simp only [List.length_cons]
        omega
      | none =>
        rw [hrec] at h
        by_cases hc : c = '\n'
        · rw [if_pos hc] at h
          obtain rfl : rest = r := by injection h
          simp
        · rw [if_neg hc] at h
          exact (nomatch h)
    · rw [if_neg hw] at h
      exact (nomatch h)

lemma splitAtClose_length : ∀ (cs pre rest : List Char),
    splitAtClose cs = some (pre, rest) → rest.length < cs.length := by
  intro cs
  induction cs with
  | nil => intro pre rest h; exact (nomatch h)
  | cons c cs' ih =>
    intro pre rest h
    rw [splitAtClose] at h
    cases hs : stripLit "```".data (c :: cs') with
    | some r =>
      rw [hs] at h
      obtain ⟨rfl, rfl⟩ : ([] : List Char) = pre ∧ r = rest := by
        injection h with h1
        exact ⟨congrArg Prod.fst h1, congrArg Prod.snd h1⟩
      have := stripLit_length _ _ _ hs
      simp only [List.length_cons] at this ⊢
      omega
    | none =>
      rw [hs] at h
      cases hrec : splitAtClose cs' with
      | none => rw [hrec] at h; exact (nomatch h)
      | some pr =>
        rw [hrec] at h
        obtain ⟨rfl, rfl⟩ : c :: pr.1 = pre ∧ pr.2 = rest := by
          injection h with h1
          exact ⟨congrArg Prod.fst h1, congrArg Prod.snd h1⟩
        have := ih pr.1 pr.2 (by rw [hrec])
        simp only [List.length_cons]
        omega

lemma matchBlockAt_length {cs inner r : List Char}
    (h : matchBlockAt cs = some (inner, r)) : r.length < cs.length := by
  rw [matchBlockAt] at h
  cases h1 : stripLit "```suggestion".data cs with
  | none =>
    simp only [h1] at h
    exact (nomatch h)
  | some afterTok =>
    simp only [h1] at h
    cases h2 : dropThroughLastNl afterTok with
    | none =>
      simp only [h2] at h
      exact (nomatch h)
    | some afterOpen =>
      simp only [h2] at h
      have l1 := stripLit_length _ _ _ h1
      have l2 := dropThroughLastNl_length _ _ h2
      have l3 := splitAtClose_length _ _ _ h
      omega

lemma stripBlocksFuel_congr : ∀ (f1 : Nat), ∀ (f2 : Nat) (cs : List Char),
    cs.length ≤ f1 → cs.length ≤ f2 →
    stripBlocksFuel f1 cs = stripBlocksFuel f2 cs := by
  intro f1
  induction f1 with
  | zero =>
    intro f2 cs h1 _
    obtain rfl : cs = [] := List.eq_nil_of_length_eq_zero (by omega)
    cases f2 <;> rfl
  | succ n ih =>
    intro f2 cs h1 h2
    cases cs with
    | nil => cases f2 <;> rfl
    | cons c rest =>
      cases f2 with
      | zero => simp at h2
      | succ m =>
        rw [stripBlocksFuel, stripBlocksFuel]
        cases hm : matchBlockAt (c :: rest) with
        | some pr =>
          obtain ⟨inner, r⟩ := pr
          have hl := matchBlockAt_length hm
          simp only [List.length_cons] at h1 h2 hl
          exact ih m r (by omega) (by omega)
        | none =>
          simp only [List.length_cons] at h1 h2
          rw [ih m rest (by omega) (by omega)]

lemma stripBlocksChars_cons_match {c : Char} {rest inner r : List Char}
    (hm : matchBlockAt (c :: rest) = some (inner, r)) :
    stripBlocksChars (c :: rest) = stripBlocksChars r := by
  have hl := matchBlockAt_length hm
  rw [stripBlocksChars, stripBlocksChars, List.length_cons, stripBlocksFuel, hm]
  exact stripBlocksFuel_congr rest.length r.length r
    (by simp only [List.length_cons] at hl; omega) (le_refl _)

lemma stripBlocksChars_cons_nomatch {c : Char} {rest : List Char}
    (hm : matchBlockAt (c :: rest) = none) :
    stripBlocksChars (c :: rest) = c :: stripBlocksChars rest := by
  rw [stripBlocksChars, stripBlocksChars, List.length_cons, stripBlocksFuel, hm]

lemma stripBlocks_of_findBlock_none : ∀ (cs : List Char),
    findBlock cs = none → stripBlocksChars cs = cs := by
  intro cs
  induction cs with
  | nil => intro _; rfl
  | cons c rest ih =>
    intro h
    rw [findBlock] at h
    cases hm : matchBlockAt (c :: rest) with
    | some pr => rw [hm] at h; exact (nomatch h)
    | none =>
      rw [hm] at h
      rw [stripBlocksChars_cons_nomatch hm, ih (by
        cases hf : findBlock rest with
        | none => rfl
        | some pir => rw [hf] at h; exact (nomatch h))]

lemma stripBlocks_of_findBlock_some : ∀ (cs pre inner rest : List Char),
    findBlock cs = some (pre, inner, rest) →
    stripBlocksChars cs = pre ++ stripBlocksChars rest := by
  intro cs
  induction cs with
  | nil => intro pre inner rest h; exact (nomatch h)
  | cons c tail ih =>
    intro pre inner rest h
    rw [findBlock] at h
    cases hm : matchBlockAt (c :: tail) with
    | some pr =>
      rw [hm] at h
      obtain ⟨rfl, rfl, rfl⟩ :
          ([] : List Char) = pre ∧ pr.1 = inner ∧ pr.2 = rest := by
        injection h with h1
        refine ⟨congrArg (fun x => x.1) h1, ?_, ?_⟩
        · exact congrArg (fun x => x.2.1) h1
        · exact congrArg (fun x => x.2.2) h1
      rw [List.nil_append]
      exact stripBlocksChars_cons_match (by rw [hm])
    | none =>
      rw [hm] at h
      cases hf : findBlock tail with
      | none => rw [hf] at h; exact (nomatch h)
      | some pir =>
        rw [hf] at h
        obtain ⟨rfl, rfl, rfl⟩ :
            c :: pir.1 = pre ∧ pir.2.1 = inner ∧ pir.2.2 = rest := by
          injection h with h1
          refine ⟨congrArg (fun x => x.1) h1, ?_, ?_⟩
          · exact congrArg (fun x => x.2.1) h1
          · exact congrArg (fun x => x.2.2) h1
        rw [stripBlocksChars_cons_nomatch hm, ih pir.1 pir.2.1 pir.2.2 (by rw [hf]),
            List.cons_append]

/-- C9: extraction and stripping share one fence matcher — extraction
returns the first matched block only (it ignores everything after the
first match, so later blocks are irrelevant), returns `""` when no block
matches, and `StripSuggestionBlock` removes exactly the spans of the
same matcher, resuming after each match; hence the two operations never
disagree about what constitutes a suggestion block. -/
theorem C9_first_block_shared_matcher (body : String) :
    (∀ pre inner rest, findBlock body.data = some (pre, inner, rest) →
      parseSuggestion body = String.mk (trimTrailNl inner)) ∧
    (findBlock body.data = none → parseSuggestion body = "") ∧
    (∀ cs pre inner rest, findBlock cs = some (pre, inner, rest) →
      stripBlocksChars cs = pre ++ stripBlocksChars rest) ∧
    (∀ cs, findBlock cs = none → stripBlocksChars cs = cs) ∧
    stripSuggestionBlock body = String.mk (trimSpaceChars (removeImages
      (stripBlocksChars (trimSpaceChars body.data)))) := by
  refine ⟨?_, ?_, ?_, ?_, rfl⟩
  · intro pre inner rest h
    rw [parseSuggestion, h]
  · intro h
    rw [parseSuggestion, h]
  · intro cs pre inner rest h
    exact stripBlocks_of_findBlock_some cs pre inner rest h
  · intro cs h
    exact stripBlocks_of_findBlock_none cs h

/-- Witness for C9: on a body with two suggestion blocks, only the first
(`foo`) is extracted, while the stripper removes both blocks. -/
theorem C9_first_block_shared_matcher_witness :
    findBlock bodyTwo.data =
      some ("a\n".data, "foo\n".data, "\nmid\n```suggestion\nbar\n```".data) ∧
    parseSuggestion bodyTwo = "foo" ∧
    stripSuggestionBlock bodyTwo = "a\n\nmid" := by
  have hf : findBlock bodyTwo.data =
      some ("a\n".data, "foo\n".data, "\nmid\n```suggestion\nbar\n```".data) := by
    decide
  have h1 := (C9_first_block_shared_matcher bodyTwo).1 _ _ _ hf
  rw [show String.mk (trimTrailNl ("foo\n".data)) = "foo" from rfl] at h1
  exact ⟨hf, h1, by rfl⟩

/-- Counterexample for C5: a not-found failure yields the plain
not-found error — `saveMismatchDiff` is not invoked and no diagnostic
artifact path is produced, contrary to the claim that an artifact is
written whenever the code block is not found. -/
theorem C5_no_artifact_on_not_found :
    findReplacementTarget true cNF (splitNl "alpha\nbeta\n") =
      Except.error (ApplyError.notFound 1 "gamma") := by
  rfl

/-- C5 (amended): a diagnostic artifact is produced only when the final
defensive verification detects a content mismatch; then the error
carries the mismatch line (the first mismatching position, 1-based) and
the artifact path `/tmp/gh-prreview-mismatch-<id>.diff` (or `""` when
the artifact write fails, in which case the plain error is returned);
the artifact lines contain the raw hunk, the expected lines with the
mismatch line flagged `!`, the actual lines flagged identically, a
synthesized unified diff with five lines of context on each side, and
the raw suggested replacement text. -/
theorem C5_mismatch_artifact (saveOk : Bool) (c : ReviewComment)
    (f a : List String) (tl j : Nat)
    (hbound : tl + a.length ≤ f.length)
    (hm : firstMismatch f a tl = some j) :
    finalVerify saveOk c f a (tl : Int) =
      Except.error (ApplyError.contentMismatch (tl + j + 1)
        (saveMismatchDiff saveOk c)) ∧
    (saveOk = true → saveMismatchDiff saveOk c = mismatchDiffPath c.id) ∧
    (saveOk = false → saveMismatchDiff saveOk c = "") ∧
    mismatchDiffPath c.id =
      "/tmp/gh-prreview-mismatch-" ++ toString c.id ++ ".diff" ∧
    (j < a.length ∧ f.getD (tl + j) "" ≠ a.getD j "" ∧
      ∀ m, m < j → f.getD (tl + m) "" = a.getD m "") ∧
    buildMismatchDiff c f tl a (tl + j + 1) =
      joinNl (mismatchDiffLines c f tl a (tl + j + 1)) ++ "\n" ∧
    flagMark (tl + j + 1) (tl + j + 1) = "!" ∧
    (∀ n, n ≠ tl + j + 1 → flagMark n (tl + j + 1) = " ") ∧
    (∀ l ∈ splitNl c.diffHunk,
      ("# " ++ l) ∈ mismatchDiffLines c f tl a (tl + j + 1)) ∧
    (∀ i, i < a.length →
      ("# " ++ flagMark (tl + i + 1) (tl + j + 1) ++ " [" ++
        toString (tl + i + 1) ++ "] " ++ a.getD i "")
        ∈ mismatchDiffLines c f tl a (tl + j + 1)) ∧
    (∀ i, i < a.length → tl + i < f.length →
      ("# " ++ flagMark (tl + i + 1) (tl + j + 1) ++ " [" ++
        toString (tl + i + 1) ++ "] " ++ f.getD (tl + i) "")
        ∈ mismatchDiffLines c f tl a (tl + j + 1)) ∧
    ("@@ -" ++ toString (tl + 1) ++ "," ++ toString a.length ++ " +" ++
        toString (tl + 1) ++ "," ++ toString a.length ++ " @@")
      ∈ mismatchDiffLines c f tl a (tl + j + 1) ∧
    (∀ i, tl - 5 ≤ i → i < tl →
      (" " ++ f.getD i "") ∈ mismatchDiffLines c f tl a (tl + j + 1)) ∧
    (∀ i, tl + a.length ≤ i → i < min (tl + a.length + 5) f.length →
      (" " ++ f.getD i "") ∈ mismatchDiffLines c f tl a (tl + j + 1)) ∧
    (∀ l ∈ a, ("-" ++ l) ∈ mismatchDiffLines c f tl a (tl + j + 1)) ∧
    (∀ i, tl ≤ i → i < min (tl + a.length) f.length →
      ("+" ++ f.getD i "") ∈ mismatchDiffLines c f tl a (tl + j + 1)) ∧
    (∀ l ∈ splitNl c.suggestedCode,
      ("# > " ++ l) ∈ mismatchDiffLines c f tl a (tl + j + 1)) := by
  obtain ⟨hja, hne, hmin⟩ := firstMismatch_some hm
  refine ⟨?_, fun hs => by rw [saveMismatchDiff, if_pos hs],
          fun hs => by rw [saveMismatchDiff, hs, if_neg (by simp)],
          rfl, ⟨hja, hne, hmin⟩, rfl, by rw [flagMark, if_pos rfl],
          fun n hn => by rw [flagMark, if_neg hn],
          ?_, ?_, ?_, ?_, ?_, ?_, ?_, ?_, ?_⟩
  · rw [finalVerify, if_pos ⟨by omega, by rw [Int.toNat_ofNat]; exact hbound⟩]
    simp only [Int.toNat_ofNat, hm]
  · intro l hl
    have hx := List.mem_map_of_mem (fun s => "# " ++ s) hl
    simp only [mismatchDiffLines, List.mem_append]
    tauto
  · intro i hi
    have hx := List.mem_map_of_mem
      (fun i => "# " ++ flagMark (tl + i + 1) (tl + j + 1) ++ " [" ++
        toString (tl + i + 1) ++ "] " ++ a.getD i "")
      (List.mem_range.mpr hi)
    simp only [mismatchDiffLines, List.mem_append]
    tauto
  · intro i hi hif
    have him : i ∈ List.range (min a.length (f.length - tl)) := by
      rw [List.mem_range]; omega
    have hx := List.mem_map_of_mem
      (fun i => "# " ++ flagMark (tl + i + 1) (tl + j + 1) ++ " [" ++
        toString (tl + i + 1) ++ "] " ++ f.getD (tl + i) "") him
    simp only [mismatchDiffLines, List.mem_append]
    tauto
  · simp only [mismatchDiffLines, List.mem_append, List.mem_cons]
    tauto
  · intro i h5 hit
    have him : i ∈ List.range' (tl - 5) (min tl f.length - (tl - 5)) := by
      rw [List.mem_range'_1]; omega
    have hx := List.mem_map_of_mem (fun i => " " ++ f.getD i "") him
    simp only [mismatchDiffLines, List.mem_append]
    tauto
  · intro i hge hlt
    have him : i ∈ List.range' (tl + a.length)
        (min (tl + a.length + 5) f.length - (tl + a.length)) := by
      rw [List.mem_range'_1]; omega
    have hx := List.mem_map_of_mem (fun i => " " ++ f.getD i "") him
    simp only [mismatchDiffLines, List.mem_append]
    tauto
  · intro l hl
    have hx := List.mem_map_of_mem (fun s => "-" ++ s) hl
    simp only [mismatchDiffLines, List.mem_append]
    tauto
  · intro i hge hlt
    have him : i ∈ List.range' tl (min (tl + a.length) f.length - tl) := by
      rw [List.mem_range'_1]; omega
    have hx := List.mem_map_of_mem (fun i => "+" ++ f.getD i "") him
    simp only [mismatchDiffLines, List.mem_append]
    tauto
  · intro l hl
    have hx := List.mem_map_of_mem (fun s => "# > " ++ s) hl
    simp only [mismatchDiffLines, List.mem_append]
    tauto

/-- Witness for the amended C5: a concrete mismatch (`actual` vs
`expected`) makes the final verification fail with mismatch line 1 and
the artifact path derived from comment id 11. -/
theorem C5_mismatch_artifact_witness :
    (0 : Nat) + (["expected"] : List String).length ≤
      (["actual"] : List String).length ∧
    firstMismatch ["actual"] ["expected"] 0 = some 0 ∧
    finalVerify true cMis ["actual"] ["expected"] ((0 : Nat) : Int) =
      Except.error (ApplyError.contentMismatch 1
        "/tmp/gh-prreview-mismatch-11.diff") := by
  have hb : (0 : Nat) + (["expected"] : List String).length ≤
      (["actual"] : List String).length := by decide
  have hm : firstMismatch ["actual"] ["expected"] 0 = some 0 := by decide
  have h := (C5_mismatch_artifact true cMis ["actual"] ["expected"] 0 0 hb hm).1
  rw [show saveMismatchDiff true cMis = "/tmp/gh-prreview-mismatch-11.diff"
      from rfl] at h
  exact ⟨hb, hm, h⟩
